import Mathlib

set_option linter.unusedSectionVars false
set_option synthInstance.maxSize 4096

/-!
Verification of `globalcache` (johnh865/globalcache), a memoization layer
keyed by argument values, against its natural-language specification.

The development shallowly embeds `globalcache/cache.py`:

* Python `OrderedDict` state is modelled as an association list (`List (K × V)`)
  ordered oldest-first; `__setitem__` on a present key updates the value in
  place, on an absent key appends at the end (`dictSet`).
* `LimitDict` carries its `size_limit : Option Int` (`None` means unlimited).
  `_check_size_limit` is the source's `while len(self) > self.size_limit:
  self.popitem(last=False)` loop; `popitem` on an empty dict raises `KeyError`,
  which the embedding surfaces through `Except PyError`.
* `Cache` facades and their shared `cache` storage dict are mutable Python
  objects aliased through `globals()`; the embedding uses an explicit heap
  (`World`) of stores and facade records addressed by numeric references,
  so that "inherits storage by reference" is expressible.
* Exceptions (`ValueError`, `KeyError`) become an explicit `PyError` type.
* The persistence tier (`save=True`, shelve files) referenced by the
  repository's tests is absent from `globalcache/cache.py`; it is modelled
  from the specification (`savedCall`) and marked as such.
-/

set_option autoImplicit false

namespace GlobalCache

variable {K V : Type} [DecidableEq K]

/-- Association-list lookup: first pair whose key equals `a` (Python dict lookup;
keys in our lists are unique by construction). -/
def alookup (l : List (K × V)) (a : K) : Option V :=
  match l with
  | [] => none
  | (k, v) :: rest => if k = a then some v else alookup rest a

/-- Python `dict.__setitem__` / `OrderedDict.__setitem__` on an insertion-ordered
association list: update in place when the key is present, append when absent. -/
def dictSet (l : List (K × V)) (a : K) (b : V) : List (K × V) :=
  match l with
  | [] => [(a, b)]
  | (k, v) :: rest => if k = a then (k, b) :: rest else (k, v) :: dictSet rest a b

/-- Python `dict.setdefault(a, b)`: return the stored value when present,
otherwise insert `b` and return it; also returns the updated dict. -/
def setdefault (l : List (K × V)) (a : K) (b : V) : List (K × V) × V :=
  match alookup l a with
  | some b0 => (l, b0)
  | none => (dictSet l a b, b)

/-- Keys of an association list, in order. -/
def keysOf (l : List (K × V)) : List K := l.map Prod.fst

/-- Python exception kinds the embedded code can raise. -/
inductive PyError : Type
  | valueError (msg : String)
  | keyError
deriving DecidableEq, Repr

instance instDecEqExcept {ε α : Type} [DecidableEq ε] [DecidableEq α] :
    DecidableEq (Except ε α) := fun x y =>
  match x, y with
  | .error a, .error b =>
    if h : a = b then .isTrue (by rw [h])
    else .isFalse (by intro hc; cases hc; exact h rfl)
  | .ok a, .ok b =>
    if h : a = b then .isTrue (by rw [h])
    else .isFalse (by intro hc; cases hc; exact h rfl)
  | .error _, .ok _ => .isFalse (by intro hc; cases hc)
  | .ok _, .error _ => .isFalse (by intro hc; cases hc)

/-- Boolean success test for `Except` results. -/
def exceptOk {ε γ : Type} : Except ε γ → Bool
  | .ok _ => true
  | .error _ => false

/-- Module-level parsing of the `GLOBAL_CACHE_SIZE_LIMIT` environment variable
(cache.py lines 20-23): `SIZE_LIMIT = int(...)`, then non-positive values are
replaced by `None` (unlimited). -/
def parseSizeLimit (n : Int) : Option Int :=
  if n ≤ 0 then none else some n

/-- State of a `LimitDict` (cache.py `class LimitDict(OrderedDict)`):
the `OrderedDict` contents, oldest-first, plus the `size_limit` attribute. -/
structure LimitDict (K V : Type) : Type where
  entries : List (K × V)
  size_limit : Option Int
deriving DecidableEq

/-- Body of `LimitDict._check_size_limit`'s loop:
`while len(self) > self.size_limit: self.popitem(last=False)`.
`popitem(last=False)` removes the oldest (first) entry; called on an empty
dict it raises `KeyError` (reachable only for a negative `size_limit`). -/
def checkLoop (limit : Int) : List (K × V) → Except PyError (List (K × V))
  | [] => if (0 : Int) > limit then .error .keyError else .ok []
  | p :: rest =>
    if ((p :: rest).length : Int) > limit then checkLoop limit rest
    else .ok (p :: rest)

/-- `LimitDict._check_size_limit`: a no-op when `size_limit is None`, otherwise
the eviction loop. -/
def LimitDict.checkSize (d : LimitDict K V) : Except PyError (LimitDict K V) :=
  match d.size_limit with
  | none => .ok d
  | some lim => (checkLoop lim d.entries).map fun e => ⟨e, d.size_limit⟩

/-- `LimitDict.__setitem__`: `super().__setitem__(key, value)` then
`self._check_size_limit()`. -/
def LimitDict.setItem (d : LimitDict K V) (k : K) (v : V) : Except PyError (LimitDict K V) :=
  LimitDict.checkSize ⟨dictSet d.entries k v, d.size_limit⟩

/-- `LimitDict.__init__` with no initial items: store `_size_limit`, start
empty, then `self._check_size_limit()`. -/
def LimitDict.init (limit : Option Int) : Except PyError (LimitDict K V) :=
  LimitDict.checkSize ⟨[], limit⟩

/-- Keys currently present in a `LimitDict`, oldest first. -/
def LimitDict.keys (d : LimitDict K V) : List K := keysOf d.entries

/-- Run a sequence of `__setitem__` calls against a `LimitDict`. -/
def runOps (d : LimitDict K V) : List (K × V) → Except PyError (LimitDict K V)
  | [] => .ok d
  | (k, v) :: rest => do
    let d1 ← d.setItem k v
    runOps d1 rest

/-- The last `n` elements of a list. -/
def lastN (n : Nat) (l : List K) : List K := l.drop (l.length - n)

/-- Reference model of the spec's bounded-map contract: after each `set`, the
map holds the `min(C, number of distinct keys inserted so far)`
most-recently-inserted distinct keys, where re-setting a currently present
key is not an insertion (the source evicts FIFO and never refreshes order).
This definition follows the spec's words, to be compared with `LimitDict`. -/
def specRecentKeys (C : Nat) (acc : List K) : List (K × V) → List K
  | [] => acc
  | (k, _) :: rest =>
    if k ∈ acc then specRecentKeys C acc rest
    else specRecentKeys C (lastN C (acc ++ [k])) rest

/-- A cache key as built by `CacheVar.__init__`: the positional-argument
tuple together with `frozenset(kwargs.items())` when kwargs were supplied
(`None` otherwise). -/
abbrev PyKey (α : Type) : Type := List α × Option (Finset (String × α))

/-- `self.key = (args, kwargs)` after
`if kwargs is not None: kwargs = frozenset(kwargs.items())`. -/
def mkKey {α : Type} [DecidableEq α] (args : List α)
    (kwargs : Option (List (String × α))) : PyKey α :=
  (args, kwargs.map fun l => l.toFinset)

/-- The two-level storage dict owned by a facade: module → name → `LimitDict`
(`Cache.cache` in the source). -/
abbrev Store (K V : Type) : Type :=
  List (String × List (String × LimitDict K V))

/-- Lookup of the per-function `LimitDict` at `cache.cache[module][name]`. -/
def lookupFcache (s : Store K V) (module name : String) : Option (LimitDict K V) :=
  alookup ((alookup s module).getD []) name

/-- Write the per-function `LimitDict` back at `cache.cache[module][name]`
(a mutation of the aliased `fcache` object in Python). -/
def writeFcache (s : Store K V) (module name : String) (fc : LimitDict K V) : Store K V :=
  dictSet s module (dictSet ((alookup s module).getD []) name fc)

/-- `CacheVar.__init__` storage part:
`self.module_dict = cache.cache.setdefault(module, {})` followed by
`self.fcache = self.module_dict.setdefault(name, LimitDict(_size_limit=size_limit))`.
The `LimitDict(...)` argument is evaluated eagerly even when the name is
already present. Returns the updated store and the fcache the handle holds. -/
def cacheVarInit (s : Store K V) (module name : String) (limit : Option Int) :
    Except PyError (Store K V × LimitDict K V) := do
  let (s1, md) := setdefault s module []
  let fresh ← LimitDict.init limit
  let (md1, fc) := setdefault md name fresh
  .ok (dictSet s1 module md1, fc)

/-- `CacheVar.get`: `try: return self.fcache[key] except KeyError:
raise ValueError('Variable not yet set.')`. -/
def CacheVar.get (fc : LimitDict K V) (key : K) : Except PyError V :=
  match alookup fc.entries key with
  | some v => .ok v
  | none => .error (.valueError "Variable not yet set.")

/-- `CacheVar.is_cached` property: `if Settings.DISABLE: return False;
return self.key in self.fcache`. The disable flag is read at query time. -/
def CacheVar.is_cached (disable : Bool) (fc : LimitDict K V) (key : K) : Bool :=
  if disable then false else (alookup fc.entries key).isSome

/-- `CacheVar.not_cached` property: `if Settings.DISABLE: return True;
return self.key not in self.fcache`. The disable flag is read at query time. -/
def CacheVar.not_cached (disable : Bool) (fc : LimitDict K V) (key : K) : Bool :=
  if disable then true else (alookup fc.entries key).isNone

/-- One call of the wrapper built by `Cache._sub_decorate`:
construct the `CacheVar` (which creates the per-function map on first use with
the given `size_limit`), then `if var.not_cached: out = fn(...); var.set(out)
else: out = var.get()`. Returns the result, whether the wrapped body was
executed, and the updated store. -/
def subDecorateCall {α : Type} [DecidableEq α] (disable : Bool)
    (fn : List α → Option (List (String × α)) → V)
    (s : Store (PyKey α) V) (module name : String) (limit : Option Int)
    (args : List α) (kwargs : Option (List (String × α))) :
    Except PyError (V × Bool × Store (PyKey α) V) := do
  let key := mkKey args kwargs
  let (s1, fc) ← cacheVarInit s module name limit
  if CacheVar.not_cached disable fc key then
    let out := fn args kwargs
    let fc1 ← fc.setItem key out
    .ok (out, true, writeFcache s1 module name fc1)
  else
    let out ← CacheVar.get fc key
    .ok (out, false, s1)

/-- Observable outcome of `Cache.decorate`: either a wrapper whose calls use
the recorded `size_limit` for per-function map creation (`_sub_decorate`),
the `decorate_reset` decorator, or the decorator factory closing over the
caller-supplied `size_limit`. -/
inductive DecorateResult : Type
  | wrapped (size_limit : Option Int)
  | resetWrapper
  | factory (size_limit : Int)
deriving DecidableEq

/-- `Cache.decorate(fn=None, size_limit=None, reset=False)` dispatch:
`if callable(fn): return self._sub_decorate(fn, size_limit=self.size_limit)`,
`elif reset: return self.decorate_reset`, `elif size_limit is not None:
return (lambda fn: self._sub_decorate(fn, size_limit=size_limit))`, else
`raise ValueError('Wrong keyword argument set')`. -/
def Cache.decorate (selfLimit : Option Int) (fnGiven : Bool)
    (size_limit : Option Int) (reset : Bool) : Except PyError DecorateResult :=
  if fnGiven then .ok (.wrapped selfLimit)
  else if reset then .ok .resetWrapper
  else
    match size_limit with
    | some n => .ok (.factory n)
    | none => .error (.valueError "Wrong keyword argument set")

/-- Applying the decorator factory returned by `Cache.decorate(size_limit=N)`
to a function yields `self._sub_decorate(fn, size_limit=N)`. -/
def DecorateResult.applyFactory : DecorateResult → Option DecorateResult
  | .factory n => some (.wrapped (some n))
  | _ => none

/-- Process-wide `Settings`: `GLOBAL_CACHE_NAME`, `DISABLE`, `SIZE_LIMIT`. -/
structure GSettings : Type where
  cacheName : String
  disable : Bool
  sizeLimit : Option Int
deriving DecidableEq

/-- Mutable attributes of a `Cache` facade object: the reference to its
storage dict (`self.cache`), `self._global_vars`, and `self.size_limit`. -/
structure Facade : Type where
  cacheRef : Nat
  globalVars : List String
  sizeLimit : Option Int
deriving DecidableEq

/-- Explicit heap: storage dicts and facade objects addressed by index,
so Python reference sharing (`self.cache = g[name].cache`) is expressible. -/
structure World (K V : Type) : Type where
  stores : List (Store K V)
  facades : List Facade
deriving DecidableEq

/-- The `globals()` dict restricted to cache slots: slot name → facade ref. -/
abbrev Globals : Type := List (String × Nat)

/-- Dereference a store. -/
def getStore (w : World K V) (r : Nat) : Store K V := w.stores.getD r []

/-- Mutate the store object behind a reference. -/
def setStore (w : World K V) (r : Nat) (s : Store K V) : World K V :=
  { w with stores := w.stores.set r s }

/-- Allocate a fresh store object (`self.cache = {}` allocates a new dict). -/
def allocStore (w : World K V) (s : Store K V) : World K V × Nat :=
  ({ w with stores := w.stores ++ [s] }, w.stores.length)

/-- Dereference a facade object. -/
def getFacade (w : World K V) (r : Nat) : Facade :=
  w.facades.getD r ⟨0, [], none⟩

/-- Mutate the facade object behind a reference. -/
def setFacade (w : World K V) (r : Nat) (f : Facade) : World K V :=
  { w with facades := w.facades.set r f }

/-- Allocate a fresh facade object. -/
def allocFacade (w : World K V) (f : Facade) : World K V × Nat :=
  ({ w with facades := w.facades ++ [f] }, w.facades.length)

/-- `Cache.set_globals(g, name=None, reset=False, size_limit=None)`:
default `name` and `size_limit` from `Settings`; if `name in g`, either
reset to a fresh storage dict or inherit `g[name].cache` by reference,
otherwise create fresh storage; then `g[name] = self`,
`self._global_vars = set()`, `self.size_limit = size_limit`. -/
def Cache.setGlobals (st : GSettings) (w : World K V) (g : Globals) (self : Nat)
    (name : Option String) (reset : Bool) (size_limit : Option Int) :
    World K V × Globals :=
  let nm := name.getD st.cacheName
  let lim := match size_limit with | none => st.sizeLimit | some s => some s
  let (w1, cref) :=
    match alookup g nm with
    | some otherRef =>
      if reset then allocStore w []
      else (w, (getFacade w otherRef).cacheRef)
    | none => allocStore w []
  let g1 := dictSet g nm self
  let w2 := setFacade w1 self ⟨cref, [], lim⟩
  (w2, g1)

/-- `Cache.__init__`: allocate the facade object, then `set_globals`. -/
def Cache.init (st : GSettings) (w : World K V) (g : Globals)
    (name : Option String) (reset : Bool) (size_limit : Option Int) :
    World K V × Globals × Nat :=
  let (w1, fref) := allocFacade w ⟨0, [], none⟩
  let (w2, g1) := Cache.setGlobals st w1 g fref name reset size_limit
  (w2, g1, fref)

/-- `Cache.var(name, args=(), kwargs=None, size_limit=None)`:
`if name in self._global_vars: raise ValueError(...)`, then record the name,
default the size limit from `self.size_limit`, and build the `CacheVar`
(whose `__init__` creates the per-function map under module key
`dictname = name`). Returns the updated world, the fcache the handle holds,
and the handle's key. -/
def Cache.var {α : Type} [DecidableEq α] (w : World (PyKey α) V) (self : Nat)
    (name : String) (args : List α) (kwargs : Option (List (String × α)))
    (size_limit : Option Int) :
    Except PyError (World (PyKey α) V × LimitDict (PyKey α) V × PyKey α) := do
  let f := getFacade w self
  if name ∈ f.globalVars then
    .error (.valueError ("Var \"" ++ name ++ "\" cannot be repeated. Use a unique name."))
  else
    let w1 := setFacade w self { f with globalVars := f.globalVars ++ [name] }
    let lim := match size_limit with | none => f.sizeLimit | some s => some s
    let (store1, fc) ← cacheVarInit (getStore w1 f.cacheRef) name name lim
    .ok (setStore w1 f.cacheRef store1, fc, mkKey args kwargs)

/-- Modelled from the spec: the persistence tier (`decorate(save=True)`,
the shelve-backed durable store and `delete_shelve`) is referenced by the
repository's tests but absent from `globalcache/cache.py`. Per spec §4.4,
a lookup checks the in-memory map first; on miss it falls back to the
durable store, populating the in-memory map on a durable hit; on a total
miss it computes and writes through to both tiers. Returns the result,
whether the wrapped body was executed, and the updated memory/durable maps. -/
def savedCall {α : Type} [DecidableEq α]
    (fn : List α → Option (List (String × α)) → V)
    (mem shelf : List (PyKey α × V))
    (args : List α) (kwargs : Option (List (String × α))) :
    V × Bool × List (PyKey α × V) × List (PyKey α × V) :=
  let key := mkKey args kwargs
  match alookup mem key with
  | some v => (v, false, mem, shelf)
  | none =>
    match alookup shelf key with
    | some v => (v, false, dictSet mem key v, shelf)
    | none =>
      let out := fn args kwargs
      (out, true, dictSet mem key out, dictSet shelf key out)

/-- A size limit that cannot evict the entry just inserted into a fresh map:
`None` (unlimited) or a natural number at least 1. -/
def limitPos (l : Option Int) : Prop :=
  l = none ∨ ∃ n : Nat, l = some (n : Int) ∧ 1 ≤ n

instance instDecEqLimitDictPyKeyInt : DecidableEq (LimitDict (PyKey Int) Int) :=
  inferInstance

instance instDecEqStorePyKeyInt : DecidableEq (Store (PyKey Int) Int) :=
  inferInstance

instance instDecEqWorldPyKeyInt : DecidableEq (World (PyKey Int) Int) :=
  inferInstance

/-- Concrete `Settings` for the executable scenarios below. -/
def exSettings : GSettings := ⟨"GC", false, some 10⟩

/-- Scenario: `c = Cache(globals())` on an empty namespace. -/
def exInit1 : World (PyKey Int) Int × Globals × Nat :=
  Cache.init exSettings ⟨[], []⟩ [] none false none

/-- World after creating facade `exA`. -/
def exW1 : World (PyKey Int) Int := exInit1.1

/-- Namespace after creating facade `exA`. -/
def exG1 : Globals := exInit1.2.1

/-- Reference of the first facade. -/
def exA : Nat := exInit1.2.2

/-- Scenario: `cvar = c.var('x')`. -/
def exVar1 : Except PyError (World (PyKey Int) Int × LimitDict (PyKey Int) Int × PyKey Int) :=
  Cache.var exW1 exA "x" ([] : List Int) none none

/-- World extracted from a successful `Cache.var` call (empty world on error;
the error case is unreachable in the scenarios below). -/
def varOkWorld {α : Type} [DecidableEq α]
    (e : Except PyError (World (PyKey α) V × LimitDict (PyKey α) V × PyKey α)) :
    World (PyKey α) V :=
  match e with
  | .ok (w, _, _) => w
  | .error _ => ⟨[], []⟩

/-- Handle fcache extracted from a successful `Cache.var` call. -/
def varOkFc {α : Type} [DecidableEq α]
    (e : Except PyError (World (PyKey α) V × LimitDict (PyKey α) V × PyKey α)) :
    LimitDict (PyKey α) V :=
  match e with
  | .ok (_, fc, _) => fc
  | .error _ => ⟨[], none⟩

/-- Handle key extracted from a successful `Cache.var` call. -/
def varOkKey {α : Type} [DecidableEq α]
    (e : Except PyError (World (PyKey α) V × LimitDict (PyKey α) V × PyKey α)) :
    PyKey α :=
  match e with
  | .ok (_, _, key) => key
  | .error _ => ([], none)

/-- World after the first `c.var('x')`. -/
def exW2 : World (PyKey Int) Int := varOkWorld exVar1

/-- The fcache held by the handle returned by `c.var('x')` (never `set`). -/
def exFc1 : LimitDict (PyKey Int) Int := varOkFc exVar1

/-- The key held by the handle returned by `c.var('x')`. -/
def exKey1 : PyKey Int := varOkKey exVar1

/-- Scenario: a second facade `c2 = Cache(globals())` in the same namespace. -/
def exInit2 : World (PyKey Int) Int × Globals × Nat :=
  Cache.init exSettings exW2 exG1 none false none

/-- World after creating the second facade. -/
def exW3 : World (PyKey Int) Int := exInit2.1

/-- Reference of the second facade. -/
def exB : Nat := exInit2.2.2

/-- Scenario: re-binding the first facade, `c.set_globals(globals())`. -/
def exRebind : World (PyKey Int) Int × Globals :=
  Cache.setGlobals exSettings exW2 exG1 exA none false none

/-- World after re-binding the first facade. -/
def exW4 : World (PyKey Int) Int := exRebind.1

instance instDecEqStoreIntInt : DecidableEq (Store Int Int) :=
  inferInstance

instance instDecEqWorldIntInt : DecidableEq (World Int Int) :=
  inferInstance

/-- Concrete world for the storage-inheritance scenario: one facade whose
storage dict holds one cached entry. -/
def exw7 : World Int Int :=
  ⟨[[("m", [("f", ⟨[((1 : Int), (2 : Int))], some 10⟩)])]], [⟨0, ["z"], some 10⟩]⟩

/-- Concrete namespace for the storage-inheritance scenario. -/
def exg7 : Globals := [("GC", 0)]

end GlobalCache

namespace GlobalCache

variable {K V : Type} [DecidableEq K]

@[simp]
theorem alookup_nil (a : K) : alookup ([] : List (K × V)) a = none := rfl

@[simp]
theorem alookup_cons (k : K) (v : V) (rest : List (K × V)) (a : K) :
    alookup ((k, v) :: rest) a = if k = a then some v else alookup rest a := rfl

@[simp]
theorem dictSet_nil (a : K) (b : V) : dictSet ([] : List (K × V)) a b = [(a, b)] := rfl

theorem except_bind_ok {ε γ δ : Type} (a : γ)
    (f : γ → Except ε δ) : (Except.ok a >>= f) = f a := rfl

theorem except_bind_error {ε γ δ : Type} (e : ε)
    (f : γ → Except ε δ) : ((Except.error e : Except ε γ) >>= f) = Except.error e := rfl

theorem alookup_dictSet_self (l : List (K × V)) (a : K) (b : V) :
    alookup (dictSet l a b) a = some b := by
  induction l with
  | nil => simp [dictSet, alookup]
  | cons p rest ih =>
    obtain ⟨k, v⟩ := p
    by_cases h : k = a <;> simp [dictSet, alookup, h, ih]

theorem alookup_dictSet_ne (l : List (K × V)) (a : K) (b : V) (a' : K) (h : a ≠ a') :
    alookup (dictSet l a b) a' = alookup l a' := by
  induction l with
  | nil => simp [dictSet, alookup, h]
  | cons p rest ih =>
    obtain ⟨k, v⟩ := p
    by_cases hk : k = a
    · subst hk
      simp [dictSet, alookup, h]
    · simp only [dictSet, if_neg hk, alookup]
      by_cases hk' : k = a'
      · simp [hk']
      · simp [hk', ih]

theorem keysOf_dictSet_mem (l : List (K × V)) (a : K) (b : V)
    (h : a ∈ keysOf l) : keysOf (dictSet l a b) = keysOf l := by
  induction l with
  | nil => simp [keysOf] at h
  | cons p rest ih =>
    obtain ⟨k, v⟩ := p
    by_cases hk : k = a
    · simp [dictSet, keysOf, hk]
    · have hmem : a ∈ keysOf rest := by
        have h2 : a = k ∨ a ∈ keysOf rest := by simpa [keysOf] using h
        rcases h2 with h2 | h2
        · exact absurd h2.symm hk
        · exact h2
      simp only [dictSet, if_neg hk, keysOf, List.map_cons] at ih ⊢
      rw [ih hmem]

theorem keysOf_dictSet_not_mem (l : List (K × V)) (a : K) (b : V)
    (h : a ∉ keysOf l) : keysOf (dictSet l a b) = keysOf l ++ [a] := by
  induction l with
  | nil => simp [dictSet, keysOf]
  | cons p rest ih =>
    obtain ⟨k, v⟩ := p
    have hk : k ≠ a := by
      intro hk
      exact h (by simp [keysOf, hk])
    have hrest : a ∉ keysOf rest := by
      intro hmem
      exact h (by simp [keysOf]; right; simpa [keysOf] using hmem)
    simp only [dictSet, if_neg hk, keysOf, List.map_cons] at ih ⊢
    rw [ih hrest]
    simp

theorem dictSet_of_alookup_eq (l : List (K × V)) (a : K) (b : V)
    (h : alookup l a = some b) : dictSet l a b = l := by
  induction l with
  | nil => simp [alookup] at h
  | cons p rest ih =>
    obtain ⟨k, v⟩ := p
    by_cases hk : k = a
    · subst hk
      simp [alookup] at h
      simp [dictSet, h]
    · simp [alookup, hk] at h
      simp [dictSet, hk, ih h]

theorem dictSet_dictSet (l : List (K × V)) (a : K) (b b' : V) :
    dictSet (dictSet l a b) a b' = dictSet l a b' := by
  induction l with
  | nil => simp [dictSet]
  | cons p rest ih =>
    obtain ⟨k, v⟩ := p
    by_cases hk : k = a <;> simp [dictSet, hk, ih]

theorem checkLoop_nonneg (C : Nat) (l : List (K × V)) :
    checkLoop (C : Int) l = .ok (l.drop (l.length - C)) := by
  induction l with
  | nil =>
    simp [checkLoop]
  | cons p rest ih =>
    simp only [checkLoop]
    split
    · rename_i h
      have h' : (p :: rest).length > C := by exact_mod_cast h
      have hd : (p :: rest).length - C = (rest.length - C) + 1 := by
        simp only [List.length_cons] at h' ⊢
        omega
      rw [ih, hd]
      simp
    · rename_i h
      have h' : ¬ (p :: rest).length > C := by exact_mod_cast h
      have hd : (p :: rest).length - C = 0 := by omega
      rw [hd]
      simp

theorem setItem_limit_none (d : LimitDict K V) (k : K) (v : V) (h : d.size_limit = none) :
    d.setItem k v = .ok ⟨dictSet d.entries k v, none⟩ := by
  simp [LimitDict.setItem, LimitDict.checkSize, h]

theorem setItem_limit_nat (d : LimitDict K V) (C : Nat) (k : K) (v : V)
    (h : d.size_limit = some (C : Int)) :
    d.setItem k v =
      .ok ⟨(dictSet d.entries k v).drop ((dictSet d.entries k v).length - C),
           some (C : Int)⟩ := by
  obtain ⟨e, lim⟩ := d
  simp only at h
  subst h
  simp [LimitDict.setItem, LimitDict.checkSize, checkLoop_nonneg, Except.map]

theorem keysOf_drop (l : List (K × V)) (n : Nat) :
    keysOf (l.drop n) = (keysOf l).drop n := by
  simp [keysOf, List.map_drop]

theorem keysOf_length (l : List (K × V)) : (keysOf l).length = l.length := by
  simp [keysOf]

theorem runOps_keys (C : Nat) (ops : List (K × V)) :
    ∀ d : LimitDict K V, d.size_limit = some (C : Int) → d.keys.length ≤ C →
    ∃ d', runOps d ops = .ok d' ∧ d'.size_limit = some (C : Int) ∧
      d'.keys = specRecentKeys C (V := V) d.keys ops ∧ d'.keys.length ≤ C := by
  induction ops with
  | nil =>
    intro d hlim hlen
    exact ⟨d, rfl, hlim, rfl, hlen⟩
  | cons p rest ih =>
    intro d hlim hlen
    obtain ⟨k, v⟩ := p
    have hstep := setItem_limit_nat d C k v hlim
    by_cases hmem : k ∈ d.keys
    · -- update in place: keys unchanged, length unchanged, no eviction
      have hkeys : keysOf (dictSet d.entries k v) = keysOf d.entries :=
        keysOf_dictSet_mem d.entries k v hmem
      have hlen' : (dictSet d.entries k v).length = d.entries.length := by
        have := congrArg List.length hkeys
        simpa [keysOf_length] using this
      have hlend : d.entries.length ≤ C := by
        have := hlen
        simpa [LimitDict.keys, keysOf_length] using this
      have hdrop : (dictSet d.entries k v).length - C = 0 := by omega
      set d1 : LimitDict K V := ⟨dictSet d.entries k v, some (C : Int)⟩ with hd1
      have hstep' : d.setItem k v = .ok d1 := by
        rw [hstep, hdrop]
        simp [hd1]
      have hd1keys : d1.keys = d.keys := by
        simp [hd1, LimitDict.keys, hkeys]
      obtain ⟨d', hrun, hl, hk, hle⟩ := ih d1 (by simp [hd1]) (by rw [hd1keys]; exact hlen)
      refine ⟨d', ?_, hl, ?_, hle⟩
      · simp only [runOps, hstep']
        exact hrun
      · rw [hk, hd1keys]
        simp [specRecentKeys, hmem]
    · -- genuinely new key: appended at the end, oldest evicted if over capacity
      have hkeys : keysOf (dictSet d.entries k v) = keysOf d.entries ++ [k] :=
        keysOf_dictSet_not_mem d.entries k v hmem
      have hlen' : (dictSet d.entries k v).length = d.entries.length + 1 := by
        have := congrArg List.length hkeys
        simpa [keysOf_length] using this
      set d1 : LimitDict K V :=
        ⟨(dictSet d.entries k v).drop ((dictSet d.entries k v).length - C),
         some (C : Int)⟩ with hd1
      have hd1keys : d1.keys = lastN C (d.keys ++ [k]) := by
        simp only [hd1, LimitDict.keys, keysOf_drop, hkeys, lastN]
        have : (keysOf (dictSet d.entries k v)).length
            = (keysOf d.entries ++ [k]).length := by rw [hkeys]
        simp only [keysOf_length, hlen']
        have hlk : (keysOf d.entries ++ [k]).length = d.entries.length + 1 := by
          simp [keysOf_length]
        rw [hlk]
      have hd1len : d1.keys.length ≤ C := by
        rw [hd1keys]
        have hlend : d.entries.length ≤ C := by
          simpa [LimitDict.keys, keysOf_length] using hlen
        simp only [lastN, List.length_drop, List.length_append, List.length_singleton]
        have : (d.keys ++ [k]).length = d.entries.length + 1 := by
          simp [LimitDict.keys, keysOf_length]
        omega
      obtain ⟨d', hrun, hl, hk, hle⟩ := ih d1 (by simp [hd1]) hd1len
      refine ⟨d', ?_, hl, ?_, hle⟩
      · simp only [runOps, hstep]
        exact hrun
      · rw [hk, hd1keys]
        simp [specRecentKeys, hmem]

theorem mem_keysOf_dictSet (l : List (K × V)) (a : K) (b : V) (a' : K)
    (h : a' ∈ keysOf l) : a' ∈ keysOf (dictSet l a b) := by
  by_cases hmem : a ∈ keysOf l
  · rw [keysOf_dictSet_mem l a b hmem]
    exact h
  · rw [keysOf_dictSet_not_mem l a b hmem]
    exact List.mem_append_left _ h

theorem self_mem_keysOf_dictSet (l : List (K × V)) (a : K) (b : V) :
    a ∈ keysOf (dictSet l a b) := by
  by_cases hmem : a ∈ keysOf l
  · rw [keysOf_dictSet_mem l a b hmem]
    exact hmem
  · rw [keysOf_dictSet_not_mem l a b hmem]
    exact List.mem_append_right _ (by simp)

theorem checkSize_size_limit (d fc0 : LimitDict K V) (h : d.checkSize = .ok fc0) :
    fc0.size_limit = d.size_limit := by
  obtain ⟨e0, lim0⟩ := d
  cases lim0 with
  | none =>
    simp only [LimitDict.checkSize] at h
    cases h
    rfl
  | some lim =>
    simp only [LimitDict.checkSize] at h
    cases hc : checkLoop lim e0 with
    | error e =>
      rw [hc] at h
      simp [Except.map] at h
    | ok e =>
      rw [hc] at h
      simp only [Except.map, Except.ok.injEq] at h
      rw [← h]

theorem init_size_limit (limit : Option Int) (fc0 : LimitDict K V)
    (h : LimitDict.init (K := K) (V := V) limit = .ok fc0) : fc0.size_limit = limit := by
  have := checkSize_size_limit ⟨[], limit⟩ fc0 h
  simpa using this

theorem init_ok_of_limitPos (limit : Option Int) (h : limitPos limit) :
    LimitDict.init (K := K) (V := V) limit = .ok ⟨[], limit⟩ := by
  rcases h with h | ⟨n, h, hn⟩
  · subst h
    rfl
  · subst h
    simp [LimitDict.init, LimitDict.checkSize, checkLoop_nonneg, Except.map]

theorem setItem_empty_of_limitPos (limit : Option Int) (h : limitPos limit) (k : K) (v : V) :
    (⟨[], limit⟩ : LimitDict K V).setItem k v = .ok ⟨[(k, v)], limit⟩ := by
  rcases h with h | ⟨n, h, hn⟩
  · subst h
    exact setItem_limit_none _ _ _ rfl
  · subst h
    have hstep := setItem_limit_nat (⟨[], some (n : Int)⟩ : LimitDict K V) n k v rfl
    have h0 : (1 : Nat) - n = 0 := by omega
    simpa [dictSet, h0] using hstep

theorem cacheVarInit_found (s : Store K V) (m n : String) (limit : Option Int)
    (fc fc0 : LimitDict K V) (hfc : lookupFcache s m n = some fc)
    (hinit : LimitDict.init (K := K) (V := V) limit = .ok fc0) :
    cacheVarInit s m n limit = .ok (s, fc) := by
  unfold cacheVarInit
  cases hmod : alookup s m with
  | none =>
    rw [lookupFcache, hmod] at hfc
    simp at hfc
  | some md =>
    rw [lookupFcache, hmod] at hfc
    simp only [Option.getD_some] at hfc
    simp only [setdefault, hmod, hinit, except_bind_ok, hfc]
    rw [dictSet_of_alookup_eq s m md hmod]

theorem cacheVarInit_absent (s : Store K V) (m n : String) (limit : Option Int)
    (fc0 : LimitDict K V) (hfc : lookupFcache s m n = none)
    (hinit : LimitDict.init (K := K) (V := V) limit = .ok fc0) :
    cacheVarInit s m n limit = .ok (writeFcache s m n fc0, fc0) := by
  unfold cacheVarInit writeFcache
  cases hmod : alookup s m with
  | some md =>
    rw [lookupFcache, hmod] at hfc
    simp only [Option.getD_some] at hfc
    simp [setdefault, hmod, hinit, except_bind_ok, hfc]
  | none =>
    simp [setdefault, hmod, hinit, except_bind_ok, dictSet_dictSet]

theorem lookupFcache_writeFcache_self (s : Store K V) (m n : String)
    (fc : LimitDict K V) :
    lookupFcache (writeFcache s m n fc) m n = some fc := by
  simp [lookupFcache, writeFcache, alookup_dictSet_self]

end GlobalCache

open GlobalCache

/-- Claim C1: for a `LimitDict` with capacity `C > 0` and any sequence of
`__setitem__` calls, the surviving keys are exactly the `min(C, number of
distinct keys inserted so far)` most-recently-inserted distinct keys
(`specRecentKeys`, the spec-side reference model) and the length never
exceeds `C`; when a new distinct key is inserted at capacity, exactly the
single oldest surviving key (the head of the insertion order) is evicted;
concretely, capacity 5 with keys 0..9 inserted in order leaves exactly keys
5,6,7,8,9 and length 5. -/
theorem limitdict_retains_recent_keys {K : Type} {V : Type} [DecidableEq K]
    (C : Nat) (hC : 0 < C) (ops : List (K × V)) :
    (∃ d' : LimitDict K V,
        runOps (⟨[], some (C : Int)⟩ : LimitDict K V) ops = .ok d' ∧
        d'.keys = specRecentKeys C (V := V) [] ops ∧
        d'.keys.length ≤ C) ∧
    (∀ (d : LimitDict K V) (k : K) (v : V),
        d.size_limit = some (C : Int) → d.keys.length = C → k ∉ d.keys →
        ∃ d', d.setItem k v = .ok d' ∧ d'.keys = d.keys.tail ++ [k]) ∧
    runOps (⟨[], some (5 : Int)⟩ : LimitDict Int Int)
        ((List.range 10).map fun i => ((i : Int), (i : Int)))
      = .ok ⟨[(5, 5), (6, 6), (7, 7), (8, 8), (9, 9)], some 5⟩ := by
  refine ⟨?_, ?_, ?_⟩
  · obtain ⟨d', h1, h2, h3, h4⟩ :=
      runOps_keys C ops (⟨[], some (C : Int)⟩ : LimitDict K V) rfl
        (by simp [LimitDict.keys, keysOf])
    exact ⟨d', h1, by simpa [LimitDict.keys, keysOf] using h3, h4⟩
  · intro d k v hlim hlen hmem
    have hstep := setItem_limit_nat d C k v hlim
    have hkeys : keysOf (dictSet d.entries k v) = keysOf d.entries ++ [k] :=
      keysOf_dictSet_not_mem d.entries k v hmem
    have hlen' : (dictSet d.entries k v).length = d.entries.length + 1 := by
      have := congrArg List.length hkeys
      simpa [keysOf_length] using this
    have hlend : d.entries.length = C := by
      simpa [LimitDict.keys, keysOf_length] using hlen
    refine ⟨_, hstep, ?_⟩
    have hdrop : (dictSet d.entries k v).length - C = 1 := by omega
    simp only [LimitDict.keys, keysOf_drop, hkeys, hdrop]
    have hne : d.keys ≠ [] := by
      intro hnil
      rw [hnil] at hlen
      simp at hlen
      omega
    obtain ⟨k0, t, hcons⟩ := List.exists_cons_of_ne_nil hne
    simp only [LimitDict.keys] at hcons
    rw [hcons]
    simp [hcons]
  · decide

/-- Witness for C1 at capacity 5 and a concrete insertion sequence. -/
theorem limitdict_retains_recent_keys_witness :
    (∃ d' : LimitDict Int Int,
        runOps (⟨[], some ((5 : Nat) : Int)⟩ : LimitDict Int Int)
            [((0 : Int), (10 : Int)), ((1 : Int), (11 : Int))] = .ok d' ∧
        d'.keys = specRecentKeys 5 (V := Int) []
            [((0 : Int), (10 : Int)), ((1 : Int), (11 : Int))] ∧
        d'.keys.length ≤ 5) ∧
    (∀ (d : LimitDict Int Int) (k : Int) (v : Int),
        d.size_limit = some ((5 : Nat) : Int) → d.keys.length = 5 → k ∉ d.keys →
        ∃ d', d.setItem k v = .ok d' ∧ d'.keys = d.keys.tail ++ [k]) ∧
    runOps (⟨[], some (5 : Int)⟩ : LimitDict Int Int)
        ((List.range 10).map fun i => ((i : Int), (i : Int)))
      = .ok ⟨[(5, 5), (6, 6), (7, 7), (8, 8), (9, 9)], some 5⟩ :=
  limitdict_retains_recent_keys (K := Int) (V := Int) 5 (by decide)
    [((0 : Int), (10 : Int)), ((1 : Int), (11 : Int))]

/-- Counterexample to claim C5: a `LimitDict` configured directly with
capacity 0 is not treated as unlimited; a single `__setitem__` evicts the
entry just inserted, so the inserted key does not remain present. -/
theorem limitdict_zero_capacity_counterexample :
    LimitDict.setItem (⟨[], some 0⟩ : LimitDict Int Int) 1 2 = .ok ⟨[], some 0⟩ ∧
    ¬ ∃ d' : LimitDict Int Int,
        LimitDict.setItem (⟨[], some 0⟩ : LimitDict Int Int) 1 2 = .ok d' ∧
        (1 : Int) ∈ d'.keys := by
  have h0 : LimitDict.setItem (⟨[], some 0⟩ : LimitDict Int Int) 1 2
      = .ok (⟨[], some 0⟩ : LimitDict Int Int) := by decide
  refine ⟨h0, ?_⟩
  rintro ⟨d', h1, h2⟩
  rw [h0] at h1
  cases h1
  simp [LimitDict.keys, keysOf] at h2

/-- Claim C5 as amended: the "non-positive means unlimited" conversion lives
in the module-level environment parsing (`SIZE_LIMIT <= 0` becomes `None`),
and a map whose `size_limit` is `None` never evicts: after any
`__setitem__`, every previously present key and the newly set key are
present. A `LimitDict` handed a non-positive capacity directly does evict
(capacity 0 empties the map on every set). -/
theorem nonpositive_size_limit_amended {K : Type} {V : Type} [DecidableEq K]
    (n : Int) (hn : n ≤ 0) (d : LimitDict K V) (hd : d.size_limit = none)
    (k : K) (v : V) :
    parseSizeLimit n = none ∧
    d.setItem k v = .ok ⟨dictSet d.entries k v, none⟩ ∧
    (∀ k', k' ∈ d.keys → k' ∈ keysOf (dictSet d.entries k v)) ∧
    k ∈ keysOf (dictSet d.entries k v) := by
  refine ⟨by simp [parseSizeLimit, hn], setItem_limit_none d k v hd, ?_, ?_⟩
  · intro k' hk'
    exact mem_keysOf_dictSet d.entries k v k' hk'
  · exact self_mem_keysOf_dictSet d.entries k v

/-- Witness for the amended C5 at a concrete non-positive limit and map. -/
theorem nonpositive_size_limit_amended_witness :
    parseSizeLimit (-3) = none ∧
    LimitDict.setItem (⟨[((7 : Int), (70 : Int))], none⟩ : LimitDict Int Int) 8 80
      = .ok ⟨dictSet [((7 : Int), (70 : Int))] 8 80, none⟩ ∧
    (∀ k', k' ∈ (⟨[((7 : Int), (70 : Int))], none⟩ : LimitDict Int Int).keys →
      k' ∈ keysOf (dictSet [((7 : Int), (70 : Int))] 8 80)) ∧
    (8 : Int) ∈ keysOf (dictSet [((7 : Int), (70 : Int))] 8 80) :=
  nonpositive_size_limit_amended (-3) (by decide)
    (⟨[((7 : Int), (70 : Int))], none⟩ : LimitDict Int Int) rfl 8 80

/-- Claim C2: with the disable flag false, calling a `_sub_decorate`-wrapped
function twice with identical hashable arguments (fresh per-function map with
a size limit that cannot evict the single entry, no intervening eviction or
reset) executes the wrapped body only on the first call; the second call
returns the same cached result without executing the body, and leaves the
store unchanged. -/
theorem decorated_function_computes_once {α V : Type} [DecidableEq α]
    (fn : List α → Option (List (String × α)) → V)
    (s : Store (PyKey α) V) (m n : String) (limit : Option Int)
    (args : List α) (kwargs : Option (List (String × α)))
    (hfresh : lookupFcache s m n = none)
    (hlim : limitPos limit) :
    ∃ s1, subDecorateCall false fn s m n limit args kwargs
        = .ok (fn args kwargs, true, s1) ∧
      subDecorateCall false fn s1 m n limit args kwargs
        = .ok (fn args kwargs, false, s1) := by
  have hinit : LimitDict.init (K := PyKey α) (V := V) limit = .ok ⟨[], limit⟩ :=
    init_ok_of_limitPos limit hlim
  refine ⟨writeFcache (writeFcache s m n ⟨[], limit⟩) m n
      ⟨[(mkKey args kwargs, fn args kwargs)], limit⟩, ?_, ?_⟩
  · have hcv := cacheVarInit_absent s m n limit ⟨[], limit⟩ hfresh hinit
    have hset := setItem_empty_of_limitPos (K := PyKey α) (V := V) limit hlim
        (mkKey args kwargs) (fn args kwargs)
    have hnc : CacheVar.not_cached false (⟨[], limit⟩ : LimitDict (PyKey α) V)
        (mkKey args kwargs) = true := by
      simp [CacheVar.not_cached]
    simp only [subDecorateCall, hcv, except_bind_ok, hnc, if_true, hset]
  · have hl2 := lookupFcache_writeFcache_self (writeFcache s m n ⟨[], limit⟩) m n
      (⟨[(mkKey args kwargs, fn args kwargs)], limit⟩ : LimitDict (PyKey α) V)
    have hcv2 := cacheVarInit_found
      (writeFcache (writeFcache s m n ⟨[], limit⟩) m n
        ⟨[(mkKey args kwargs, fn args kwargs)], limit⟩)
      m n limit
      (⟨[(mkKey args kwargs, fn args kwargs)], limit⟩ : LimitDict (PyKey α) V)
      (⟨[], limit⟩ : LimitDict (PyKey α) V) hl2 hinit
    have hnc2 : CacheVar.not_cached false
        (⟨[(mkKey args kwargs, fn args kwargs)], limit⟩ : LimitDict (PyKey α) V)
        (mkKey args kwargs) = false := by
      simp [CacheVar.not_cached]
    simp only [subDecorateCall, hcv2, except_bind_ok, hnc2, Bool.false_eq_true,
      if_false, CacheVar.get, alookup_cons, if_pos rfl]
    rfl

/-- Witness for C2 at a concrete function, arguments and size limit. -/
theorem decorated_function_computes_once_witness :
    ∃ s1, subDecorateCall false
        (fun (_ : List Int) (_ : Option (List (String × Int))) => (42 : Int))
        ([] : Store (PyKey Int) Int) "mod" "f" (some 10) [(3 : Int)] none
        = .ok ((fun (_ : List Int) (_ : Option (List (String × Int))) => (42 : Int))
            [(3 : Int)] none, true, s1) ∧
      subDecorateCall false
        (fun (_ : List Int) (_ : Option (List (String × Int))) => (42 : Int))
        s1 "mod" "f" (some 10) [(3 : Int)] none
        = .ok ((fun (_ : List Int) (_ : Option (List (String × Int))) => (42 : Int))
            [(3 : Int)] none, false, s1) :=
  decorated_function_computes_once
    (fun (_ : List Int) (_ : Option (List (String × Int))) => (42 : Int))
    ([] : Store (PyKey Int) Int) "mod" "f" (some 10) [(3 : Int)] none rfl
    (Or.inr ⟨10, rfl, by omega⟩)

/-- Claim C4: with the disable flag set, `is_cached` is false and
`not_cached` is true for every handle regardless of prior `set` calls (the
flag is consulted at query time: the same handle with the flag clear reports
`is_cached` true for a present key), and every call of a decorated function
executes the wrapped body. -/
theorem disable_flag_semantics {α V : Type} [DecidableEq α]
    (fc : LimitDict (PyKey α) V) (key : PyKey α)
    (hkey : (alookup fc.entries key).isSome = true)
    (fn : List α → Option (List (String × α)) → V)
    (s : Store (PyKey α) V) (m n : String) (limit : Option Int)
    (args : List α) (kwargs : Option (List (String × α)))
    (out : V) (ex : Bool) (s' : Store (PyKey α) V)
    (hrun : subDecorateCall true fn s m n limit args kwargs = .ok (out, ex, s')) :
    CacheVar.is_cached true fc key = false ∧
    CacheVar.not_cached true fc key = true ∧
    CacheVar.is_cached false fc key = true ∧
    ex = true ∧ out = fn args kwargs := by
  have hana : ex = true ∧ out = fn args kwargs := by
    simp only [subDecorateCall] at hrun
    cases hcv : cacheVarInit s m n limit with
    | error e =>
      rw [hcv] at hrun
      simp [except_bind_error] at hrun
    | ok p =>
      obtain ⟨s1, fc0⟩ := p
      rw [hcv] at hrun
      simp only [except_bind_ok] at hrun
      have hnc : CacheVar.not_cached true fc0 (mkKey args kwargs) = true := rfl
      simp only [hnc, if_true] at hrun
      cases hset : fc0.setItem (mkKey args kwargs) (fn args kwargs) with
      | error e =>
        rw [hset] at hrun
        simp [except_bind_error] at hrun
      | ok fc1 =>
        rw [hset] at hrun
        simp only [except_bind_ok, Except.ok.injEq, Prod.mk.injEq] at hrun
        obtain ⟨h1, h2, h3⟩ := hrun
        exact ⟨h2.symm, h1.symm⟩
  exact ⟨rfl, rfl, by simp [CacheVar.is_cached, hkey], hana.1, hana.2⟩

/-- Witness for C4 at a concrete handle, store and decorated call. -/
theorem disable_flag_semantics_witness :
    CacheVar.is_cached true
      (⟨[((([(3 : Int)], none) : PyKey Int), (9 : Int))], some 10⟩ :
        LimitDict (PyKey Int) Int) (([(3 : Int)], none) : PyKey Int) = false ∧
    CacheVar.not_cached true
      (⟨[((([(3 : Int)], none) : PyKey Int), (9 : Int))], some 10⟩ :
        LimitDict (PyKey Int) Int) (([(3 : Int)], none) : PyKey Int) = true ∧
    CacheVar.is_cached false
      (⟨[((([(3 : Int)], none) : PyKey Int), (9 : Int))], some 10⟩ :
        LimitDict (PyKey Int) Int) (([(3 : Int)], none) : PyKey Int) = true ∧
    true = true ∧
    (7 : Int) = (fun (_ : List Int) (_ : Option (List (String × Int))) => (7 : Int))
        [(3 : Int)] none :=
  disable_flag_semantics
    (⟨[((([(3 : Int)], none) : PyKey Int), (9 : Int))], some 10⟩ :
      LimitDict (PyKey Int) Int)
    (([(3 : Int)], none) : PyKey Int) (by decide)
    (fun _ _ => (7 : Int)) ([] : Store (PyKey Int) Int) "mod" "f" (some 10)
    [(3 : Int)] none 7 true
    (writeFcache (writeFcache [] "mod" "f" ⟨[], some 10⟩) "mod" "f"
      ⟨[((([(3 : Int)], none) : PyKey Int), (7 : Int))], some 10⟩)
    (by decide)

/-- Claim C6: cache keys built from the same owner and logical name (hence
the same per-function map `fc`), equal positional tuples, and keyword lists
equal as sets of (name, value) pairs are equal; consequently lookups,
stores and `is_cached` queries with reordered keyword arguments hit the
same cache entry, and a value stored under one ordering is retrieved under
the other. -/
theorem kwargs_order_independent_keys {α V : Type} [DecidableEq α]
    (args : List α) (kw1 kw2 : List (String × α)) (h : kw1.toFinset = kw2.toFinset)
    (fc : LimitDict (PyKey α) V) (v : V) :
    mkKey args (some kw1) = mkKey args (some kw2) ∧
    CacheVar.get fc (mkKey args (some kw2)) = CacheVar.get fc (mkKey args (some kw1)) ∧
    LimitDict.setItem fc (mkKey args (some kw2)) v
      = LimitDict.setItem fc (mkKey args (some kw1)) v ∧
    CacheVar.is_cached false fc (mkKey args (some kw2))
      = CacheVar.is_cached false fc (mkKey args (some kw1)) ∧
    CacheVar.get (⟨dictSet fc.entries (mkKey args (some kw1)) v, fc.size_limit⟩ :
        LimitDict (PyKey α) V) (mkKey args (some kw2)) = .ok v := by
  have hk : mkKey args (some kw1) = mkKey args (some kw2) := by
    simp [mkKey, h]
  refine ⟨hk, by rw [hk], by rw [hk], by rw [hk], ?_⟩
  rw [← hk]
  simp [CacheVar.get, alookup_dictSet_self]

/-- Witness for C6 at concrete reordered keyword lists. -/
theorem kwargs_order_independent_keys_witness :
    mkKey [(0 : Int)] (some [("a", (1 : Int)), ("b", 2)])
      = mkKey [(0 : Int)] (some [("b", (2 : Int)), ("a", 1)]) ∧
    CacheVar.get (⟨[], some 10⟩ : LimitDict (PyKey Int) Int)
        (mkKey [(0 : Int)] (some [("b", (2 : Int)), ("a", 1)]))
      = CacheVar.get (⟨[], some 10⟩ : LimitDict (PyKey Int) Int)
        (mkKey [(0 : Int)] (some [("a", (1 : Int)), ("b", 2)])) ∧
    LimitDict.setItem (⟨[], some 10⟩ : LimitDict (PyKey Int) Int)
        (mkKey [(0 : Int)] (some [("b", (2 : Int)), ("a", 1)])) 5
      = LimitDict.setItem (⟨[], some 10⟩ : LimitDict (PyKey Int) Int)
        (mkKey [(0 : Int)] (some [("a", (1 : Int)), ("b", 2)])) 5 ∧
    CacheVar.is_cached false (⟨[], some 10⟩ : LimitDict (PyKey Int) Int)
        (mkKey [(0 : Int)] (some [("b", (2 : Int)), ("a", 1)]))
      = CacheVar.is_cached false (⟨[], some 10⟩ : LimitDict (PyKey Int) Int)
        (mkKey [(0 : Int)] (some [("a", (1 : Int)), ("b", 2)])) ∧
    CacheVar.get (⟨dictSet ([] : List (PyKey Int × Int))
        (mkKey [(0 : Int)] (some [("a", (1 : Int)), ("b", 2)])) 5, some 10⟩ :
        LimitDict (PyKey Int) Int)
        (mkKey [(0 : Int)] (some [("b", (2 : Int)), ("a", 1)])) = .ok 5 :=
  kwargs_order_independent_keys [(0 : Int)] [("a", (1 : Int)), ("b", 2)]
    [("b", (2 : Int)), ("a", 1)] (by decide)
    (⟨[], some 10⟩ : LimitDict (PyKey Int) Int) 5

/-- Claim C3 (spec-modelled): the persistence tier (`decorate(save=True)`,
shelve files, `delete_shelve`) is absent from `globalcache/cache.py`; only
the repository's tests reference it, so `savedCall` models it from the
spec. With `save` requested: a fresh call computes and writes through to
both the in-memory map and the durable store; after the in-memory facade is
reset and a facade is reconstructed over the same durable location, the
next call returns the stored value without executing the body (and
repopulates memory); after the durable store is explicitly deleted as well,
the next call recomputes. -/
theorem save_persistence_roundtrip {α V : Type} [DecidableEq α]
    (fn : List α → Option (List (String × α)) → V)
    (args : List α) (kwargs : Option (List (String × α))) :
    savedCall fn [] [] args kwargs
      = (fn args kwargs, true,
         [(mkKey args kwargs, fn args kwargs)], [(mkKey args kwargs, fn args kwargs)]) ∧
    savedCall fn [] [(mkKey args kwargs, fn args kwargs)] args kwargs
      = (fn args kwargs, false,
         [(mkKey args kwargs, fn args kwargs)], [(mkKey args kwargs, fn args kwargs)]) ∧
    savedCall fn [] [] args kwargs
      = (fn args kwargs, true,
         [(mkKey args kwargs, fn args kwargs)], [(mkKey args kwargs, fn args kwargs)]) := by
  refine ⟨?_, ?_, ?_⟩ <;> simp [savedCall, alookup, dictSet]

/-- Claim C10: `Cache.decorate` called with a callable `fn` ignores any
`size_limit` supplied in the same call and hands `self.size_limit` to
`_sub_decorate` (even when `reset` is also passed); the factory form
`decorate(size_limit=N)` produces a decorator that uses `N`; and the limit
handed to `_sub_decorate` is exactly the one the per-function map is
created with on first use. -/
theorem decorate_callable_ignores_size_limit {K V : Type} [DecidableEq K]
    (selfLimit passed : Option Int) (nf : Int)
    (s : Store K V) (m nm : String) (L : Option Int) (fc0 : LimitDict K V)
    (hfresh : lookupFcache s m nm = none)
    (hinit : LimitDict.init (K := K) (V := V) L = .ok fc0) :
    Cache.decorate selfLimit true passed false = .ok (.wrapped selfLimit) ∧
    Cache.decorate selfLimit true passed true = .ok (.wrapped selfLimit) ∧
    Cache.decorate selfLimit false (some nf) false = .ok (.factory nf) ∧
    DecorateResult.applyFactory (.factory nf) = some (.wrapped (some nf)) ∧
    cacheVarInit s m nm L = .ok (writeFcache s m nm fc0, fc0) ∧
    fc0.size_limit = L :=
  ⟨rfl, rfl, rfl, rfl, cacheVarInit_absent s m nm L fc0 hfresh hinit,
   init_size_limit L fc0 hinit⟩

/-- Witness for C10 at concrete limits and a fresh store. -/
theorem decorate_callable_ignores_size_limit_witness :
    Cache.decorate (some 10) true (some 99) false = .ok (.wrapped (some 10)) ∧
    Cache.decorate (some 10) true (some 99) true = .ok (.wrapped (some 10)) ∧
    Cache.decorate (some 10) false (some 99) false = .ok (.factory 99) ∧
    DecorateResult.applyFactory (.factory 99) = some (.wrapped (some 99)) ∧
    cacheVarInit ([] : Store Int Int) "m" "f" (some 3)
      = .ok (writeFcache [] "m" "f" ⟨[], some 3⟩, ⟨[], some 3⟩) ∧
    (⟨[], some 3⟩ : LimitDict Int Int).size_limit = some 3 :=
  decorate_callable_ignores_size_limit (some 10) (some 99) 99
    ([] : Store Int Int) "m" "f" (some 3) ⟨[], some 3⟩ rfl (by decide)

namespace GlobalCache

variable {K V : Type} [DecidableEq K]

theorem getD_set_self {γ : Type} (l : List γ) (i : Nat) (x d : γ) (h : i < l.length) :
    (l.set i x).getD i d = x := by
  induction l generalizing i with
  | nil => simp at h
  | cons a t ih =>
    cases i with
    | zero => rfl
    | succ j => exact ih j (by simpa using h)

theorem getFacade_allocFacade_old (w : World K V) (f : Facade) (r : Nat)
    (h : r < w.facades.length) : getFacade (allocFacade w f).1 r = getFacade w r := by
  simp only [getFacade, allocFacade]
  exact List.getD_append _ _ _ _ h

theorem getFacade_setFacade_self (w : World K V) (r : Nat) (f : Facade)
    (h : r < w.facades.length) : getFacade (setFacade w r f) r = f := by
  simp only [getFacade, setFacade]
  exact getD_set_self w.facades r f _ h

theorem getStore_setStore_self (w : World K V) (r : Nat) (s : Store K V)
    (h : r < w.stores.length) : getStore (setStore w r s) r = s := by
  simp only [getStore, setStore]
  exact getD_set_self w.stores r s _ h

theorem cache_init_inherit (st : GSettings) (w : World K V) (g : Globals)
    (nm : String) (aref : Nat) (sl : Option Int) (hg : alookup g nm = some aref) :
    ∃ lim : Option Int,
      Cache.init st w g (some nm) false sl
        = (setFacade (allocFacade w ⟨0, [], none⟩).1 w.facades.length
             ⟨(getFacade (allocFacade w ⟨0, [], none⟩).1 aref).cacheRef, [], lim⟩,
           dictSet g nm w.facades.length, w.facades.length) := by
  refine ⟨match sl with | none => st.sizeLimit | some s => some s, ?_⟩
  simp [Cache.init, Cache.setGlobals, allocFacade, hg]

theorem setGlobals_clears_global_vars (st : GSettings) (w : World K V) (g : Globals)
    (self : Nat) (nm : Option String) (reset : Bool) (szl : Option Int)
    (hself : self < w.facades.length) :
    (getFacade (Cache.setGlobals st w g self nm reset szl).1 self).globalVars = [] := by
  simp only [Cache.setGlobals]
  cases halo : alookup g (nm.getD st.cacheName) with
  | none =>
    simp only [halo]
    rw [getFacade_setFacade_self]
    exact hself
  | some o =>
    cases reset with
    | true =>
      simp only [halo, if_true]
      rw [getFacade_setFacade_self]
      exact hself
    | false =>
      simp only [halo, Bool.false_eq_true, if_false]
      rw [getFacade_setFacade_self]
      exact hself

end GlobalCache

/-- Claim C7: binding a new facade into a namespace whose slot already holds
facade `aref` with the force-reset flag false makes the new facade's
`cacheRef` equal to the old facade's (`self.cache = g[name].cache` copies
the reference, not the dict): the storage object is shared, every entry
cached through the old facade is retrievable through the new one (the
dereferenced stores coincide), and any subsequent store through either
facade's reference is seen when reading through the other. -/
theorem facade_inherits_storage_by_reference {K V : Type} [DecidableEq K]
    (st : GSettings) (w : World K V) (g : Globals) (nm : String) (aref : Nat)
    (sl : Option Int)
    (hg : alookup g nm = some aref)
    (ha : aref < w.facades.length)
    (hs : (getFacade w aref).cacheRef < w.stores.length) :
    (getFacade (Cache.init st w g (some nm) false sl).1
        (Cache.init st w g (some nm) false sl).2.2).cacheRef
      = (getFacade w aref).cacheRef ∧
    getStore (Cache.init st w g (some nm) false sl).1
        (getFacade (Cache.init st w g (some nm) false sl).1
          (Cache.init st w g (some nm) false sl).2.2).cacheRef
      = getStore w (getFacade w aref).cacheRef ∧
    ∀ s' : Store K V,
      getStore (setStore (Cache.init st w g (some nm) false sl).1
          (getFacade (Cache.init st w g (some nm) false sl).1
            (Cache.init st w g (some nm) false sl).2.2).cacheRef s')
        ((getFacade w aref).cacheRef) = s' ∧
      getStore (setStore (Cache.init st w g (some nm) false sl).1
          ((getFacade w aref).cacheRef) s')
        ((getFacade (Cache.init st w g (some nm) false sl).1
          (Cache.init st w g (some nm) false sl).2.2).cacheRef) = s' := by
  obtain ⟨lim, hini⟩ := cache_init_inherit st w g nm aref sl hg
  have hfl : w.facades.length < ((allocFacade w (⟨0, [], none⟩ : Facade)).1).facades.length := by
    simp [allocFacade]
  have hold : getFacade (allocFacade w (⟨0, [], none⟩ : Facade)).1 aref = getFacade w aref :=
    getFacade_allocFacade_old w _ aref ha
  have hb : getFacade (Cache.init st w g (some nm) false sl).1
      (Cache.init st w g (some nm) false sl).2.2
      = ⟨(getFacade w aref).cacheRef, [], lim⟩ := by
    rw [hini]
    have := getFacade_setFacade_self (allocFacade w (⟨0, [], none⟩ : Facade)).1
      w.facades.length
      (⟨(getFacade (allocFacade w (⟨0, [], none⟩ : Facade)).1 aref).cacheRef, [],
        lim⟩ : Facade)
      hfl
    simpa [hold] using this
  have hcr : (getFacade (Cache.init st w g (some nm) false sl).1
      (Cache.init st w g (some nm) false sl).2.2).cacheRef
      = (getFacade w aref).cacheRef := by
    rw [hb]
  have hstores : (Cache.init st w g (some nm) false sl).1.stores = w.stores := by
    rw [hini]
    rfl
  refine ⟨hcr, ?_, ?_⟩
  · rw [hcr]
    simp only [getStore, hstores]
  · intro s'
    have hlen : (getFacade w aref).cacheRef
        < (Cache.init st w g (some nm) false sl).1.stores.length := by
      rw [hstores]
      exact hs
    constructor
    · rw [hcr]
      exact getStore_setStore_self _ _ s' hlen
    · rw [hcr]
      exact getStore_setStore_self _ _ s' hlen

/-- Witness for C7 at a concrete one-facade world with one cached entry. -/
theorem facade_inherits_storage_by_reference_witness :
    (getFacade (Cache.init exSettings exw7 exg7 (some "GC") false none).1
        (Cache.init exSettings exw7 exg7 (some "GC") false none).2.2).cacheRef
      = (getFacade exw7 0).cacheRef ∧
    getStore (Cache.init exSettings exw7 exg7 (some "GC") false none).1
        (getFacade (Cache.init exSettings exw7 exg7 (some "GC") false none).1
          (Cache.init exSettings exw7 exg7 (some "GC") false none).2.2).cacheRef
      = getStore exw7 (getFacade exw7 0).cacheRef ∧
    ∀ s' : Store Int Int,
      getStore (setStore (Cache.init exSettings exw7 exg7 (some "GC") false none).1
          (getFacade (Cache.init exSettings exw7 exg7 (some "GC") false none).1
            (Cache.init exSettings exw7 exg7 (some "GC") false none).2.2).cacheRef s')
        ((getFacade exw7 0).cacheRef) = s' ∧
      getStore (setStore (Cache.init exSettings exw7 exg7 (some "GC") false none).1
          ((getFacade exw7 0).cacheRef) s')
        ((getFacade (Cache.init exSettings exw7 exg7 (some "GC") false none).1
          (Cache.init exSettings exw7 exg7 (some "GC") false none).2.2).cacheRef) = s' :=
  facade_inherits_storage_by_reference exSettings exw7 exg7 "GC" 0 none
    (by decide) (by decide) (by decide)

/-- Claim C8 (code bug): declaring a duplicate cached-variable name on the
same facade and calling `get()` on a never-set handle both raise the
generic builtin `ValueError`, not a dedicated cache-error kind; the
repository's tests (`tests/test.py`) import `CacheError` from `globalcache`
and require it for the duplicate-name case, so the code contradicts its own
tests. The non-conflict of the same name on two different facades does
hold. -/
theorem cache_error_kind_code_bug :
    Cache.var exW2 exA "x" ([] : List Int) none none
      = .error (.valueError "Var \"x\" cannot be repeated. Use a unique name.") ∧
    CacheVar.get exFc1 exKey1 = .error (.valueError "Variable not yet set.") ∧
    exceptOk (Cache.var exW3 exB "x" ([] : List Int) none none) = true ∧
    exceptOk exVar1 = true :=
  ⟨by decide, by decide, by decide, by decide⟩

/-- Counterexample to claim C9: on the same facade, registering `'x'` again
right after a successful registration fails, but after the facade is
re-bound via `set_globals` (which runs `self._global_vars = set()`) the
very same name registers successfully on the very same facade instance, so
re-registration does not fail for the whole lifetime of the facade. -/
theorem reregistration_after_set_globals_counterexample :
    exceptOk (Cache.var exW2 exA "x" ([] : List Int) none none) = false ∧
    exceptOk (Cache.var exW4 exA "x" ([] : List Int) none none) = true :=
  ⟨by decide, by decide⟩

/-- Claim C9 as amended: once a name is registered through `var`, any later
registration of the same name on that facade fails while the facade is not
re-bound; but `set_globals` clears `self._global_vars`, so after a re-bind
the registered-name set is empty and the same name (concretely `'x'` on the
re-bound scenario facade) registers again without error. -/
theorem var_registration_guard_amended {α V : Type} [DecidableEq α]
    (w : World (PyKey α) V) (self : Nat) (name : String)
    (args : List α) (kwargs : Option (List (String × α))) (sl : Option Int)
    (st : GSettings) (g : Globals) (nm : Option String) (szl : Option Int)
    (hreg : name ∈ (getFacade w self).globalVars)
    (hself : self < w.facades.length) :
    Cache.var (V := V) w self name args kwargs sl
      = .error (.valueError ("Var \"" ++ name ++ "\" cannot be repeated. Use a unique name.")) ∧
    (getFacade (Cache.setGlobals st w g self nm false szl).1 self).globalVars = [] ∧
    exceptOk (Cache.var exW4 exA "x" ([] : List Int) none none) = true := by
  refine ⟨?_, setGlobals_clears_global_vars st w g self nm false szl hself, by decide⟩
  simp [Cache.var, hreg]

/-- Witness for the amended C9 on the executable scenario facade. -/
theorem var_registration_guard_amended_witness :
    Cache.var (V := Int) exW2 exA "x" ([] : List Int) none none
      = .error (.valueError ("Var \"" ++ "x" ++ "\" cannot be repeated. Use a unique name.")) ∧
    (getFacade (Cache.setGlobals exSettings exW2 exG1 exA none false none).1 exA).globalVars
      = [] ∧
    exceptOk (Cache.var exW4 exA "x" ([] : List Int) none none) = true :=
  var_registration_guard_amended exW2 exA "x" ([] : List Int) none none
    exSettings exG1 none none (by decide) (by decide)
